import Mathlib

/-!
Verification of the booking-platform backend: the booking conflict checker
(`src/routes/bookings.js`), the availability schedule validator and upsert,
and the mentor-services batch replace (`src/routes/dashboard.js`), against
the schema of the `bookings`, `mentor_availability` and `mentor_services`
tables.

UTC instants are modelled as integers counting minutes, so the SQL
expression `session_date + duration_minutes * INTERVAL '1 minute'` becomes
`session_date + duration_minutes`, and the JavaScript
`sessionDateObj.getTime() + durationMinutes * 60 * 1000` becomes
`p + 60` for the fixed 60-minute proposed duration.
-/

namespace ZAcademy

/-- One row of the `bookings` table, restricted to the columns the booking
routes read or write.  `session_date` is a UTC instant in minutes;
`status` is the raw string stored in the `status` column (the schema
documents the values `pending`, `confirmed`, `completed`,
`cancelled_by_student`, `cancelled_by_mentor`, `no_show`). -/
structure Booking where
  mentor_id : Nat
  user_id : Nat
  service_id : Nat
  session_date : Int
  duration_minutes : Int
  status : String
deriving DecidableEq, Repr

/-- The three-clause overlap condition of the `overlapCheck` SQL in
`POST /bookings`: `s` is a stored `session_date`, `d` its
`duration_minutes`, `p` the proposed start (`$2`), and `p + 60` the
proposed end (`$3`, `sessionEndDate` in the source). -/
def overlapClause (s d p : Int) : Bool :=
  (decide (s ≤ p) && decide (s + d > p))
    || (decide (s < p + 60) && decide (s + d ≥ p + 60))
    || (decide (s ≥ p) && decide (s + d ≤ p + 60))

/-- The full WHERE clause of the `overlapCheck` query applied to one stored
row: same mentor, `status != 'cancelled'` (the string literal of the
source), and the interval condition `overlapClause`. -/
def rowConflicts (b : Booking) (mentorId : Nat) (p : Int) : Bool :=
  b.mentor_id == mentorId && !(b.status == "cancelled")
    && overlapClause b.session_date b.duration_minutes p

/-- `overlapCheck.rows.length > 0`: some stored booking matches the
conflict query for the proposed start `p`. -/
def hasConflict (bookings : List Booking) (mentorId : Nat) (p : Int) : Bool :=
  bookings.any (fun b => rowConflicts b mentorId p)

/-- One row of the `users` table, restricted to the columns the mentor
existence check reads. -/
structure User where
  id : Nat
  user_type : String
deriving DecidableEq, Repr

/-- One row of the `mentor_services` table. -/
structure MService where
  id : Nat
  mentor_id : Nat
  mentorship_service : String
  mentor_session_price : Int
  platform_fee : Int
  taxes_fee : Int
  total_price : Int
deriving DecidableEq, Repr

/-- Two concurrent `POST /bookings` requests interleaved as
check₁; check₂; insert₁; insert₂.  In the source the `overlapCheck` query
and the `insertQuery` are two separate `pool.query` calls with no enclosing
transaction, so this interleaving is a legal execution: each conflict check
runs against the bookings visible when it executes. -/
def interleavedCheckCheckInsertInsert (bookings : List Booking)
    (u1 m1 : Nat) (p1 : Int) (u2 m2 : Nat) (p2 : Int) (sid : Nat) : List Booking :=
  let c1 := hasConflict bookings m1 p1
  let c2 := hasConflict bookings m2 p2
  let st1 := if c1 then bookings else bookings ++ [⟨m1, u1, sid, p1, 60, "pending"⟩]
  if c2 then st1 else st1 ++ [⟨m2, u2, sid, p2, 60, "pending"⟩]

/-- `lo ≤ c ≤ hi` on ASCII codes: the character-class tests of the source
regexes (`[0-9]` is codes 48–57, `[A-Za-z]` is 65–90 and 97–122, …). -/
def charBetween (lo hi : Nat) (c : Char) : Bool :=
  lo ≤ c.toNat && c.toNat ≤ hi

/-- The `timeRegex` of `PUT /mentor/availability`:
`^([0-1][0-9]|2[0-3]):[0-5][0-9]$`, as a character-level matcher.  The
alternation is anchored, the classes are disjoint from `:`, so the greedy
structural match is exact. -/
def timeRegexTest (s : String) : Bool :=
  match s.data with
  | [h1, h2, colon, m1, m2] =>
    colon == ':'
      && ((charBetween 48 49 h1 && charBetween 48 57 h2)
          || (h1 == '2' && charBetween 48 51 h2))
      && charBetween 48 53 m1 && charBetween 48 57 m2
  | _ => false

/-- The zero-padded two-digit decimal rendering of `n < 100`. -/
def twoDigits (n : Nat) : List Char :=
  [Char.ofNat (48 + n / 10), Char.ofNat (48 + n % 10)]

/-- The canonical `HH:MM` string for hour `h` and minute `m`. -/
def timeLiteral (h m : Nat) : String :=
  ⟨twoDigits h ++ ':' :: twoDigits m⟩

/-- `[A-Za-z]` of the source `timezoneRegex`. -/
def isAsciiLetter (c : Char) : Bool :=
  charBetween 65 90 c || charBetween 97 122 c

/-- `[A-Za-z_]` of the source `timezoneRegex` (95 is `_`). -/
def isLetterOrUnderscore (c : Char) : Bool :=
  isAsciiLetter c || c.toNat == 95

/-- The `timezoneRegex` of `PUT /mentor/availability`:
`^[A-Za-z]+\/[A-Za-z_]+$`, as a character-level matcher.  `/` belongs to
neither class, so the greedy split at the first non-letter is exact. -/
def timezoneRegexTest (s : String) : Bool :=
  match s.data.dropWhile isAsciiLetter with
  | '/' :: r => !(s.data.takeWhile isAsciiLetter).isEmpty
      && !r.isEmpty && r.all isLetterOrUnderscore
  | _ => false

/-- One time slot of a day's schedule as checked by
`PUT /mentor/availability`: `start` and `stop` are the `start` and `end`
strings of the submitted slot object (`end` is a reserved word in Lean).
The source compares them as strings (`localeCompare`, `>=`, `>`), i.e.
lexicographically, which on zero-padded `HH:MM` strings is chronological
order. -/
structure Slot where
  start : String
  stop : String
deriving DecidableEq, Repr

/-- The sort comparator of the source availability check
(`.sort((a, b) => a.start.localeCompare(b.start))`): order by `start`. -/
def slotLe (a b : Slot) : Prop := a.start ≤ b.start

instance : DecidableRel slotLe :=
  fun a b => inferInstanceAs (Decidable (a.start ≤ b.start))

instance : IsTotal Slot slotLe := ⟨fun a b => le_total a.start b.start⟩

instance : IsTrans Slot slotLe := ⟨fun _ _ _ => le_trans⟩

/-- The consecutive-pair scan of the source
(`if (sortedSlots[i].end > sortedSlots[i + 1].start) reject`): accepts iff
every adjacent pair of the list satisfies `stop ≤ next.start`. -/
def slotsOrdered : List Slot → Bool
  | a :: b :: t => decide (a.stop ≤ b.start) && slotsOrdered (b :: t)
  | _ => true

/-- `[...schedule[day]].sort(...)`: JavaScript's `Array.prototype.sort` is
stable, modelled by the stable `insertionSort` by `start`. -/
def sortSlots (slots : List Slot) : List Slot := List.insertionSort slotLe slots

/-- The day-level overlap check of the source: sort by `start`, then scan
consecutive pairs. -/
def overlapFree (slots : List Slot) : Bool := slotsOrdered (sortSlots slots)

/-- The spec's overlap predicate on time ranges:
`A.start < B.end && B.start < A.end`. -/
def slotOverlaps (a b : Slot) : Prop := a.start < b.stop ∧ b.start < a.stop

/-- A raw slot object of a submitted schedule before validation: `start`
and `stop` model the JavaScript properties `start` and `end`; `none`
models an absent or non-string property (JavaScript `undefined`), and the
source's truthiness test `!slot.start` additionally treats the empty
string as missing. -/
structure SlotObj where
  start : Option String
  stop : Option String
deriving DecidableEq, Repr

/-- A JavaScript value stored under one key of the submitted `schedule`
object: either an array of slot objects, or any non-array value
(`nonArray`, tagged arbitrarily), which `Array.isArray` rejects. -/
inductive DayVal where
  | arr (slots : List SlotObj)
  | nonArray (tag : Nat)
deriving DecidableEq, Repr

/-- The submitted (and stored) `schedule` JSON object, as an association
list of its keys — arbitrary keys allowed, as in a JavaScript object. -/
abbrev Sched := List (String × DayVal)

/-- JavaScript property access `schedule[day]`. -/
def lookupDay (sched : Sched) (day : String) : Option DayVal :=
  (sched.find? (fun kv => kv.1 == day)).map (fun kv => kv.2)

/-- The `validDays` array of the source. -/
def validDays : List String :=
  ["monday", "tuesday", "wednesday", "thursday", "friday", "saturday", "sunday"]

/-- JavaScript truthiness of `slot.start` / `slot.end`: present, a string,
and non-empty. -/
def presentB : Option String → Bool
  | some s => !(s == "")
  | none => false

/-- The validated view of a slot object (both fields known present). -/
def slotVal (o : SlotObj) : Slot :=
  ⟨o.start.getD "", o.stop.getD ""⟩

/-- The per-slot loop of the availability handler for one day: first slot
failing, in source order, the presence check, the time-format check, or
the `start >= end` check. -/
def slotFieldError (day : String) (slots : List SlotObj) : Option String :=
  slots.findSome? (fun sl =>
    if !(presentB sl.start) || !(presentB sl.stop) then
      some ("Each time slot must have start and end times on " ++ day)
    else if !(timeRegexTest (sl.start.getD "")) || !(timeRegexTest (sl.stop.getD "")) then
      some ("Invalid time format on " ++ day)
    else if decide (sl.start.getD "" ≥ sl.stop.getD "") then
      some ("Start time must be before end time on " ++ day)
    else none)

/-- Validation of one day of the submitted schedule: `Array.isArray`
check, the per-slot loop, then the sorted consecutive-overlap scan. -/
def dayError (day : String) (v : Option DayVal) : Option String :=
  match v with
  | some (.arr slots) =>
    match slotFieldError day slots with
    | some e => some e
    | none =>
      if overlapFree (slots.map slotVal) then none
      else some ("Overlapping time slots detected on " ++ day)
  | _ => some ("Schedule must include " ++ day ++ " as an array")

/-- The schedule-validation phase of `PUT /mentor/availability`: iterate
`validDays` in order, returning the first day's error, if any. -/
def validateSchedule (sched : Sched) : Option String :=
  validDays.findSome? (fun day => dayError day (lookupDay sched day))

/-- One row of the `mentor_availability` table (columns the handler
writes; `UNIQUE(mentor_id)` is the table's uniqueness constraint). -/
structure AvailRow where
  mentor_id : Nat
  timezone : String
  schedule : Sched
deriving DecidableEq, Repr

/-- The `upsertQuery` of the source:
`INSERT ... ON CONFLICT (mentor_id) DO UPDATE SET timezone, schedule`.
If a row for the mentor exists it is overwritten in place, otherwise a
new row is appended. -/
def upsertAvailability (st : List AvailRow) (m : Nat) (tz : String) (sched : Sched) :
    List AvailRow :=
  if st.any (fun r => r.mentor_id == m) then
    st.map (fun r => if r.mentor_id == m then ⟨m, tz, sched⟩ else r)
  else st ++ [⟨m, tz, sched⟩]

/-- The full `PUT /mentor/availability` handler after authentication:
timezone format check, schedule validation, then the upsert; on any
validation error the table is untouched. -/
def putAvailability (st : List AvailRow) (m : Nat) (tz : String) (sched : Sched) :
    List AvailRow × Option String :=
  if !(timezoneRegexTest tz) then
    (st, some "Invalid timezone format. Expected IANA identifier (e.g., America/New_York)")
  else
    match validateSchedule sched with
    | some e => (st, some e)
    | none => (upsertAvailability st m tz sched, none)

/-- One call of a sequence of successful availability saves. -/
structure AvailCall where
  mentor_id : Nat
  timezone : String
  schedule : Sched

/-- A sequence of `upsertAvailability` calls applied in order. -/
def runUpserts (st : List AvailRow) (calls : List AvailCall) : List AvailRow :=
  calls.foldl (fun s c => upsertAvailability s c.mentor_id c.timezone c.schedule) st

/-- The content of the chronologically last call of the sequence for a
given mentor, if any. -/
def lastCallFor (calls : List AvailCall) (m : Nat) : Option (String × Sched) :=
  calls.foldl
    (fun acc c => if c.mentor_id == m then some (c.timezone, c.schedule) else acc) none

/-- The `UNIQUE(mentor_id)` invariant: at most one row per mentor. -/
def uniquePerMentor (st : List AvailRow) : Prop :=
  ∀ m, (st.filter (fun r => r.mentor_id == m)).length ≤ 1

/-- The database state read by `POST /bookings`: the `users`,
`mentor_services`, `bookings` and `mentor_availability` tables.  The
availability table is carried so that theorems can state which tables the
handler does and does not consult (`mentor_availability` is never queried
by the booking routes). -/
structure BookState where
  users : List User
  mentor_services : List MService
  bookings : List Booking
  mentor_availability : List AvailRow
deriving DecidableEq, Repr

/-- The `POST /bookings` handler (`createBooking`).  `sessionDate` is the
parsed proposed start: `none` models an absent or unparseable
`sessionDate` (rejected by the handler's date validation), `some p` a
parseable UTC instant.  `now` is the instant at which the handler runs.
Mirrors the source order: mentor lookup, service lookup, date parse,
future check, overlap check, insert with `status = 'pending'`. -/
def createBooking (st : BookState) (now : Int) (userId mentorId serviceId : Nat)
    (sessionDate : Option Int) : Except String (BookState × Booking) :=
  if st.users.any (fun u => u.id == mentorId && u.user_type == "mentor") then
    match st.mentor_services.find? (fun s => s.id == serviceId && s.mentor_id == mentorId) with
    | none => .error "Service not found"
    | some _service =>
      match sessionDate with
      | none => .error "Invalid session date format"
      | some p =>
        if decide (p ≤ now) then .error "Session date must be in the future"
        else if hasConflict st.bookings mentorId p then
          .error "This time slot is already booked. Please select a different time."
        else
          let b : Booking := ⟨mentorId, userId, serviceId, p, 60, "pending"⟩
          .ok ({ st with bookings := st.bookings ++ [b] }, b)
  else .error "Mentor not found"

/-- A sample schedule with all seven canonical days empty and one extra,
capitalized key holding a non-array value. -/
def sampleScheduleWithExtraKey : Sched :=
  [("monday", DayVal.arr []), ("tuesday", DayVal.arr []), ("wednesday", DayVal.arr []),
   ("thursday", DayVal.arr []), ("friday", DayVal.arr []), ("saturday", DayVal.arr []),
   ("sunday", DayVal.arr []), ("Monday", DayVal.nonArray 0)]

/-- The same sample schedule without the extra key. -/
def sampleSchedulePlain : Sched :=
  [("monday", DayVal.arr []), ("tuesday", DayVal.arr []), ("wednesday", DayVal.arr []),
   ("thursday", DayVal.arr []), ("friday", DayVal.arr []), ("saturday", DayVal.arr []),
   ("sunday", DayVal.arr [])]

/-- One item of the `services` array submitted to
`PUT /mentor/services`, before validation.  A price field is `some q` when
the JavaScript property is a number with value `q` (JavaScript numbers
here modelled as rationals; `Number.isInteger` is `q.den = 1`) and `none`
when it is absent or not a number; the name is `some s` when the property
is a string. -/
structure ServiceItem where
  mentorshipService : Option String
  mentorSessionPrice : Option Rat
  platformFee : Option Rat
  taxesFee : Option Rat
  totalPrice : Option Rat
deriving DecidableEq, Repr

/-- `!x || typeof x !== 'number' || x <= 0` on a price field (`0` is falsy,
so the truthiness test adds nothing beyond `<= 0`). -/
def optPos : Option Rat → Bool
  | some q => decide (0 < q)
  | none => false

/-- `typeof x !== 'number' || x < 0` on a fee field. -/
def optNonneg : Option Rat → Bool
  | some q => decide (0 ≤ q)
  | none => false

/-- `Number.isInteger x`. -/
def optInt : Option Rat → Bool
  | some q => q.den == 1
  | none => false

/-- The per-item validation cascade of `PUT /mentor/services`, in source
order: name, mentorSessionPrice, platformFee, taxesFee, totalPrice,
integrality of all four prices, and the total-price equation. -/
def serviceItemError (s : ServiceItem) : Option String :=
  if !(presentB s.mentorshipService) then
    some "Each service must have a valid mentorship service name"
  else if !(optPos s.mentorSessionPrice) then
    some "Each service must have a valid mentor session price (positive integer)"
  else if !(optNonneg s.platformFee) then
    some "Each service must have a valid platform fee (non-negative integer)"
  else if !(optNonneg s.taxesFee) then
    some "Each service must have a valid taxes fee (non-negative integer)"
  else if !(optPos s.totalPrice) then
    some "Each service must have a valid total price (positive integer)"
  else if !(optInt s.mentorSessionPrice && optInt s.platformFee
      && optInt s.taxesFee && optInt s.totalPrice) then
    some "All prices must be whole numbers (no decimals)"
  else if !(s.totalPrice.getD 0
      == s.mentorSessionPrice.getD 0 + s.platformFee.getD 0 + s.taxesFee.getD 0) then
    some "Total price mismatch"
  else none

/-- The validation loop over the submitted array: first failing item's
first error, before any write. -/
def servicesValidationError (items : List ServiceItem) : Option String :=
  items.findSome? serviceItemError

/-- The row inserted for a validated item (`idv` is the generated id). -/
def itemToRow (m idv : Nat) (i : ServiceItem) : MService :=
  ⟨idv, m, i.mentorshipService.getD "", (i.mentorSessionPrice.getD 0).num,
   (i.platformFee.getD 0).num, (i.taxesFee.getD 0).num, (i.totalPrice.getD 0).num⟩

/-- The `PUT /mentor/services` handler after authentication: validate all
items, and only if every item passes, run the transaction deleting the
mentor's rows and inserting the submitted items (`idGen` supplies the
generated row ids).  Returns the new table and the error, if any. -/
def putServices (idGen : Nat → Nat) (st : List MService) (m : Nat)
    (items : List ServiceItem) : List MService × Option String :=
  match servicesValidationError items with
  | some e => (st, some e)
  | none =>
    (st.filter (fun r => !(r.mentor_id == m))
      ++ items.enum.map (fun p => itemToRow m (idGen p.1) p.2), none)

/-- The pricing-relevant content of a stored service row (everything but
the generated id and the mentor id). -/
def rowContent (r : MService) : String × Int × Int × Int × Int :=
  (r.mentorship_service, r.mentor_session_price, r.platform_fee, r.taxes_fee, r.total_price)

/-- The content a submitted item is stored as. -/
def itemContent (i : ServiceItem) : String × Int × Int × Int × Int :=
  (i.mentorshipService.getD "", (i.mentorSessionPrice.getD 0).num,
   (i.platformFee.getD 0).num, (i.taxesFee.getD 0).num, (i.totalPrice.getD 0).num)

/-- The claim's validity conditions on a submitted item: a present
non-empty string name, integer prices, positive `mentorPrice` and
`totalPrice`, non-negative `platformFee` and `taxesFee`, and
`totalPrice = mentorPrice + platformFee + taxesFee`. -/
def ServiceItemOk (i : ServiceItem) : Prop :=
  (∃ s, i.mentorshipService = some s ∧ s ≠ "")
    ∧ (∃ q, i.mentorSessionPrice = some q ∧ q.den = 1 ∧ 0 < q)
    ∧ (∃ q, i.platformFee = some q ∧ q.den = 1 ∧ 0 ≤ q)
    ∧ (∃ q, i.taxesFee = some q ∧ q.den = 1 ∧ 0 ≤ q)
    ∧ (∃ q, i.totalPrice = some q ∧ q.den = 1 ∧ 0 < q)
    ∧ i.totalPrice.getD 0 = i.mentorSessionPrice.getD 0 + i.platformFee.getD 0 + i.taxesFee.getD 0

/-- C3: the three-clause disjunction of the `overlapCheck` SQL is exactly
strict interval overlap: for every stored interval `[s, s + d)` with
`d > 0` and proposed interval `[p, p + 60)`, the query matches iff
`s < p + 60` and `p < s + d`; in particular boundary touch
(`s + d = p` or `p + 60 = s`) is not a conflict. -/
theorem overlap_clause_iff_strict_overlap (s d p : Int) (hd : 0 < d) :
    overlapClause s d p = true ↔ (s < p + 60 ∧ p < s + d) := by
  simp only [overlapClause, Bool.or_eq_true, Bool.and_eq_true, decide_eq_true_eq]
  omega

theorem overlap_clause_iff_strict_overlap_witness :
    (0 : Int) < 30 ∧
      (overlapClause 50 30 60 = true ↔ ((50 : Int) < 60 + 60 ∧ (60 : Int) < 50 + 30)) :=
  ⟨by decide, overlap_clause_iff_strict_overlap 50 30 60 (by decide)⟩

/-- C1 (code bug): a booking whose status is `cancelled_by_student` is NOT
excluded by the conflict scan, because the scan filters on the literal
`status != 'cancelled'` and `'cancelled'` is not one of the schema's
status values.  A proposed session overlapping only that cancelled booking
is rejected with the slot-conflict error instead of succeeding. -/
theorem cancelled_by_student_still_blocks_booking :
    createBooking
      ⟨[⟨0, "mentor"⟩, ⟨1, "user"⟩],
       [⟨5, 0, "Profession Introduction Session", 100, 14, 26, 140⟩],
       [⟨0, 9, 5, 100, 60, "cancelled_by_student"⟩], []⟩
      0 1 0 5 (some 100)
      = .error "This time slot is already booked. Please select a different time." := by
  rfl

/-- C2 (code bug): the conflict check and the insert are not atomic.  Under
the interleaving check₁; check₂; insert₁; insert₂ of two identical
requests for mentor 0 at start 100, both checks pass against the empty
table and both bookings are created; the two created bookings overlap
each other. -/
theorem concurrent_double_booking_possible :
    interleavedCheckCheckInsertInsert [] 1 0 100 2 0 100 5
        = [⟨0, 1, 5, 100, 60, "pending"⟩, ⟨0, 2, 5, 100, 60, "pending"⟩]
      ∧ overlapClause 100 60 100 = true := by
  constructor
  · decide
  · decide

/-- Helper: `Char.ofNat` of a decimal-digit code point is the expected
character, code-point-wise. -/
theorem toNat_ofNat_digit {n : Nat} (h : n ≤ 9) :
    (Char.ofNat (48 + n)).toNat = 48 + n := by
  interval_cases n <;> decide

/-- C7 (counterexample): the time-format check rejects the single-digit-hour
string `9:30`, which the claim says is accepted. -/
theorem time_regex_rejects_nine_thirty : timeRegexTest "9:30" = false := by
  decide

/-- C7 (amended): the time-format check accepts a string iff it is the
zero-padded `HH:MM` rendering of an hour below 24 and a minute below 60 —
two-digit hours only (`([0-1][0-9]|2[0-3]):[0-5][0-9]`), so single-digit
hour strings such as `9:30` are rejected. -/
theorem time_regex_exactly_padded_times (s : String) :
    timeRegexTest s = true ↔ ∃ h m, h < 24 ∧ m < 60 ∧ s = timeLiteral h m := by
  constructor
  · intro hs
    obtain ⟨data⟩ := s
    simp only [timeRegexTest] at hs
    split at hs
    · rename_i h1 h2 colon m1 m2
      simp only [Bool.and_eq_true, Bool.or_eq_true, beq_iff_eq, charBetween,
        decide_eq_true_eq] at hs
      obtain ⟨⟨⟨hcolon, hhour⟩, hm1a, hm1b⟩, hm2a, hm2b⟩ := hs
      subst hcolon
      have hnum : (48 ≤ h1.toNat ∧ h1.toNat ≤ 49 ∧ 48 ≤ h2.toNat ∧ h2.toNat ≤ 57)
          ∨ (h1.toNat = 50 ∧ 48 ≤ h2.toNat ∧ h2.toNat ≤ 51) := by
        rcases hhour with ⟨⟨a, b⟩, c, d⟩ | ⟨a, c, d⟩
        · exact Or.inl ⟨a, b, c, d⟩
        · subst a; exact Or.inr ⟨by decide, c, d⟩
      refine ⟨(h1.toNat - 48) * 10 + (h2.toNat - 48),
              (m1.toNat - 48) * 10 + (m2.toNat - 48), by omega, by omega, ?_⟩
      have e1 : 48 + ((h1.toNat - 48) * 10 + (h2.toNat - 48)) / 10 = h1.toNat := by omega
      have e2 : 48 + ((h1.toNat - 48) * 10 + (h2.toNat - 48)) % 10 = h2.toNat := by omega
      have e3 : 48 + ((m1.toNat - 48) * 10 + (m2.toNat - 48)) / 10 = m1.toNat := by omega
      have e4 : 48 + ((m1.toNat - 48) * 10 + (m2.toNat - 48)) % 10 = m2.toNat := by omega
      simp only [timeLiteral, twoDigits, e1, e2, e3, e4, Char.ofNat_toNat]
      rfl
    · exact absurd hs (by simp)
  · rintro ⟨h, m, hh, hm, rfl⟩
    simp only [timeLiteral, twoDigits, timeRegexTest, List.cons_append, List.nil_append]
    simp only [Bool.and_eq_true, Bool.or_eq_true, beq_iff_eq, charBetween,
      decide_eq_true_eq]
    refine ⟨⟨⟨trivial, ?_⟩, ?_⟩, ?_⟩
    · rcases Nat.lt_or_ge h 20 with h20 | h20
      · left
        rw [toNat_ofNat_digit (show h / 10 ≤ 9 by omega),
          toNat_ofNat_digit (show h % 10 ≤ 9 by omega)]
        omega
      · right
        have hq : h / 10 = 2 := by omega
        rw [hq, toNat_ofNat_digit (show h % 10 ≤ 9 by omega)]
        exact ⟨by decide, by omega⟩
    · rw [toNat_ofNat_digit (show m / 10 ≤ 9 by omega)]; omega
    · rw [toNat_ofNat_digit (show m % 10 ≤ 9 by omega)]; omega

/-- Helper: the greedy letter scan of a string of the shape
`l ++ '/' :: r`, with `l` all letters, splits exactly at the `'/'`. -/
theorem takeWhile_all_append {p : Char → Bool} (l : List Char) (x : Char) (r : List Char)
    (hl : ∀ c ∈ l, p c = true) (hx : p x = false) :
    (l ++ x :: r).takeWhile p = l ∧ (l ++ x :: r).dropWhile p = x :: r := by
  induction l with
  | nil => simp [List.takeWhile_cons, List.dropWhile_cons, hx]
  | cons a l ih =>
    have ha : p a = true := hl a (List.mem_cons_self a l)
    have ih' := ih (fun c hc => hl c (List.mem_cons_of_mem a hc))
    simp [List.takeWhile_cons, List.dropWhile_cons, ha, ih'.1, ih'.2]

/-- C8 (counterexample): a timezone string with an underscore before the
slash, which the claim says passes validation, is rejected by the
source's `timezoneRegex`. -/
theorem timezone_regex_rejects_underscore_before_slash :
    timezoneRegexTest "New_York/Tbilisi" = false := by
  decide

/-- C8 (amended): the timezone check accepts exactly the strings made of a
non-empty run of ASCII letters (underscores NOT allowed before the slash),
one `/`, and a non-empty run of ASCII letters and underscores. -/
theorem timezone_regex_letters_only_before_slash (s : String) :
    timezoneRegexTest s = true ↔
      ∃ l r : List Char, s.data = l ++ '/' :: r ∧ l ≠ []
        ∧ (∀ c ∈ l, isAsciiLetter c = true)
        ∧ r ≠ [] ∧ (∀ c ∈ r, isLetterOrUnderscore c = true) := by
  constructor
  · intro hs
    simp only [timezoneRegexTest] at hs
    split at hs
    · rename_i r heq
      simp only [Bool.and_eq_true, Bool.not_eq_true', List.isEmpty_eq_false,
        List.all_eq_true] at hs
      obtain ⟨⟨hl0, hr0⟩, hrall⟩ := hs
      refine ⟨s.data.takeWhile isAsciiLetter, r, ?_, hl0, ?_, hr0, hrall⟩
      · rw [← heq, List.takeWhile_append_dropWhile]
      · intro c hc
        exact List.mem_takeWhile_imp hc
    · exact absurd hs (by simp)
  · rintro ⟨l, r, hdec, hl0, hlall, hr0, hrall⟩
    have h := takeWhile_all_append l '/' r hlall (by decide)
    simp only [timezoneRegexTest, hdec, h.1, h.2]
    simp only [Bool.and_eq_true, Bool.not_eq_true', List.isEmpty_eq_false,
      List.all_eq_true]
    exact ⟨⟨hl0, hr0⟩, hrall⟩

/-- Helper: the consecutive-pair scan is the chain of `stop ≤ next.start`
over adjacent elements. -/
theorem slotsOrdered_iff_chain (l : List Slot) :
    slotsOrdered l = true ↔ List.Chain' (fun a b => a.stop ≤ b.start) l := by
  induction l with
  | nil => simp [slotsOrdered]
  | cons a t ih =>
    cases t with
    | nil => simp [slotsOrdered]
    | cons b t' =>
      simp only [slotsOrdered, Bool.and_eq_true, decide_eq_true_eq,
        List.chain'_cons, ih]

/-- Helper: on a list whose slots each satisfy `start < stop`, adjacent
separation propagates to all pairs. -/
theorem chain_sep_pairwise (l : List Slot) (hv : ∀ s ∈ l, s.start < s.stop)
    (hc : List.Chain' (fun a b => a.stop ≤ b.start) l) :
    List.Pairwise (fun a b => a.stop ≤ b.start) l := by
  induction l with
  | nil => simp
  | cons a t ih =>
    have hpt := ih (fun s hs => hv s (List.mem_cons_of_mem a hs)) hc.tail
    refine List.Pairwise.cons ?_ hpt
    intro c hc'
    cases t with
    | nil => cases hc'
    | cons b t' =>
      have hab : a.stop ≤ b.start := (List.chain'_cons.mp hc).1
      rcases List.mem_cons.mp hc' with rfl | hc''
      · exact hab
      · have hbc : b.stop ≤ c.start := (List.pairwise_cons.mp hpt).1 c hc''
        have hb : b.start < b.stop := hv b (List.mem_cons_of_mem a (List.mem_cons_self b t'))
        exact le_trans hab (le_trans (le_of_lt hb) hbc)

/-- C5: for a day's slot list in which each slot satisfies `start < stop`,
the source's check (sort by `start`, reject when
`sorted[i].stop > sorted[i+1].start` for some consecutive pair) accepts
iff no two slots of the list pairwise overlap, where overlap is
`A.start < B.stop ∧ B.start < A.stop`; in particular adjacent slots with
`A.stop = B.start` are accepted. -/
theorem schedule_day_check_iff_pairwise_no_overlap (slots : List Slot)
    (hv : ∀ s ∈ slots, s.start < s.stop) :
    overlapFree slots = true ↔
      List.Pairwise (fun a b => ¬ slotOverlaps a b) slots := by
  have hperm : List.Perm (sortSlots slots) slots := List.perm_insertionSort slotLe slots
  have hsorted : List.Sorted slotLe (sortSlots slots) :=
    List.sorted_insertionSort slotLe slots
  have hvs : ∀ s ∈ sortSlots slots, s.start < s.stop :=
    fun s hs => hv s (hperm.mem_iff.mp hs)
  have hsymm : ∀ {x y : Slot}, ¬ slotOverlaps x y → ¬ slotOverlaps y x := by
    intro a b h hab
    exact h ⟨hab.2, hab.1⟩
  rw [overlapFree, slotsOrdered_iff_chain]
  constructor
  · intro hc
    have hp2 : List.Pairwise (fun a b => ¬ slotOverlaps a b) (sortSlots slots) :=
      (chain_sep_pairwise _ hvs hc).imp
        (fun hab hov => absurd hov.2 (not_lt.mpr hab))
    exact (hperm.pairwise_iff hsymm).mp hp2
  · intro hp
    have hp2 : List.Pairwise (fun a b => ¬ slotOverlaps a b) (sortSlots slots) :=
      (hperm.pairwise_iff hsymm).mpr hp
    have hps : List.Pairwise slotLe (sortSlots slots) := hsorted
    have hsep : List.Pairwise (fun a b : Slot => a.stop ≤ b.start) (sortSlots slots) := by
      refine (hp2.and hps).imp_of_mem ?_
      intro a b ha hb hand
      obtain ⟨hno, hle⟩ := hand
      have hbv : b.start < b.stop := hvs b hb
      by_contra hgt
      exact hno ⟨lt_of_le_of_lt hle hbv, not_le.mp hgt⟩
    exact hsep.chain'

theorem schedule_day_check_iff_pairwise_no_overlap_witness :
    (∀ s ∈ [Slot.mk "09:00" "10:00", Slot.mk "10:00" "11:00"], s.start < s.stop) ∧
      (overlapFree [Slot.mk "09:00" "10:00", Slot.mk "10:00" "11:00"] = true ↔
        List.Pairwise (fun a b => ¬ slotOverlaps a b)
          [Slot.mk "09:00" "10:00", Slot.mk "10:00" "11:00"]) :=
  ⟨by simp [String.lt_iff_toList_lt]; decide,
   schedule_day_check_iff_pairwise_no_overlap _ (by simp [String.lt_iff_toList_lt]; decide)⟩

/-- Helper: mapping the update `if p a then new else a` over a list and
filtering with a predicate `q` that excludes both `new` and every element
satisfying `p` leaves the `q`-filter unchanged. -/
theorem filter_map_update_other {α : Type} (p q : α → Bool) (w : α)
    (hw : q w = false) (hpq : ∀ a, p a = true → q a = false) :
    ∀ l : List α, (l.map (fun a => if p a then w else a)).filter q = l.filter q
  | [] => rfl
  | a :: t => by
    cases hp : p a with
    | true =>
      have hqa : q a = false := hpq a hp
      simp [List.filter_cons, hp, hw, hqa, filter_map_update_other p q w hw hpq t]
    | false =>
      simp [List.filter_cons, hp, filter_map_update_other p q w hw hpq t]

/-- Helper: mapping the update `if p a then new else a` over a list and
filtering with `p` itself yields one copy of `new` per old match. -/
theorem filter_map_update_self {α : Type} (p : α → Bool) (w : α) (hw : p w = true) :
    ∀ l : List α, (l.map (fun a => if p a then w else a)).filter p
      = List.replicate (l.countP p) w
  | [] => rfl
  | a :: t => by
    cases hp : p a with
    | true =>
      simp [List.filter_cons, List.countP_cons, hp, hw,
        filter_map_update_self p w hw t, List.replicate_succ]
    | false =>
      simp [List.filter_cons, List.countP_cons, hp, filter_map_update_self p w hw t]

/-- Helper: an upsert for mentor `m` does not change any other mentor's
rows. -/
theorem filter_upsert_other (st : List AvailRow) (m : Nat) (tz : String) (sch : Sched)
    {m' : Nat} (hne : m' ≠ m) :
    (upsertAvailability st m tz sch).filter (fun r => r.mentor_id == m')
      = st.filter (fun r => r.mentor_id == m') := by
  unfold upsertAvailability
  split
  · refine filter_map_update_other (fun r => r.mentor_id == m) (fun r => r.mentor_id == m')
      ⟨m, tz, sch⟩ ?_ ?_ st
    · simpa using Ne.symm hne
    · intro a ha
      have ham : a.mentor_id = m := by simpa using ha
      simp [ham, Ne.symm hne]
  · rw [List.filter_append, List.filter_cons_of_neg (by simp [Ne.symm hne])]
    simp

/-- Helper: on a table satisfying the uniqueness invariant, an upsert for
mentor `m` leaves exactly the new row as `m`'s rows. -/
theorem filter_upsert_self (st : List AvailRow) (m : Nat) (tz : String) (sch : Sched)
    (h : uniquePerMentor st) :
    (upsertAvailability st m tz sch).filter (fun r => r.mentor_id == m)
      = [⟨m, tz, sch⟩] := by
  unfold upsertAvailability
  split
  · rename_i hany
    rw [filter_map_update_self (fun r => r.mentor_id == m) ⟨m, tz, sch⟩ (by simp) st]
    have hle : st.countP (fun r => r.mentor_id == m) ≤ 1 := by
      rw [List.countP_eq_length_filter]
      exact h m
    have hpos : 0 < st.countP (fun r => r.mentor_id == m) := by
      rw [List.countP_pos_iff]
      exact List.any_eq_true.mp hany
    have : st.countP (fun r => r.mentor_id == m) = 1 := le_antisymm hle hpos
    rw [this]
    rfl
  · rename_i hany
    have hnil : st.filter (fun r => r.mentor_id == m) = [] := by
      rw [List.filter_eq_nil_iff]
      intro a hmem hp
      exact hany (List.any_eq_true.mpr ⟨a, hmem, hp⟩)
    rw [List.filter_append, hnil, List.filter_cons_of_pos (by simp)]
    simp

/-- Helper: an upsert preserves the one-row-per-mentor invariant. -/
theorem uniquePerMentor_upsert (st : List AvailRow) (m : Nat) (tz : String) (sch : Sched)
    (h : uniquePerMentor st) : uniquePerMentor (upsertAvailability st m tz sch) := by
  intro m'
  by_cases hm : m' = m
  · subst hm
    rw [filter_upsert_self st m' tz sch h]
    exact le_refl 1
  · rw [filter_upsert_other st m tz sch hm]
    exact h m'

/-- Helper: `lastCallFor` as a fold from an arbitrary accumulator. -/
theorem lastCallFor_foldl (m : Nat) :
    ∀ (calls : List AvailCall) (a : Option (String × Sched)),
      calls.foldl
          (fun acc c => if c.mentor_id == m then some (c.timezone, c.schedule) else acc) a
        = (match lastCallFor calls m with
           | some v => some v
           | none => a)
  | [], _ => rfl
  | c :: cs, a => by
    have h1 := lastCallFor_foldl m cs
      (if c.mentor_id == m then some (c.timezone, c.schedule) else a)
    have h2 := lastCallFor_foldl m cs
      (if c.mentor_id == m then some (c.timezone, c.schedule) else none)
    have hl : lastCallFor (c :: cs) m = cs.foldl
        (fun acc c => if c.mentor_id == m then some (c.timezone, c.schedule) else acc)
        (if c.mentor_id == m then some (c.timezone, c.schedule) else none) := rfl
    show cs.foldl _ (if c.mentor_id == m then some (c.timezone, c.schedule) else a) = _
    rw [h1, hl, h2]
    cases lastCallFor cs m with
    | some v => rfl
    | none =>
      by_cases hc : (c.mentor_id == m) = true
      · simp [hc]
      · simp [hc]

/-- Helper: after a call sequence, a mentor's rows are determined by the
last call for that mentor, or unchanged if there was none. -/
theorem runUpserts_filter (m : Nat) :
    ∀ (calls : List AvailCall) (st : List AvailRow), uniquePerMentor st →
      (runUpserts st calls).filter (fun r => r.mentor_id == m)
        = (match lastCallFor calls m with
           | some (tz, sch) => [⟨m, tz, sch⟩]
           | none => st.filter (fun r => r.mentor_id == m))
  | [], _, _ => rfl
  | c :: cs, st, h => by
    have hinv := uniquePerMentor_upsert st c.mentor_id c.timezone c.schedule h
    have hrec := runUpserts_filter m cs
      (upsertAvailability st c.mentor_id c.timezone c.schedule) hinv
    have hl : lastCallFor (c :: cs) m = (match lastCallFor cs m with
        | some v => some v
        | none => if c.mentor_id == m then some (c.timezone, c.schedule) else none) :=
      lastCallFor_foldl m cs _
    show (runUpserts (upsertAvailability st c.mentor_id c.timezone c.schedule) cs).filter _ = _
    rw [hrec, hl]
    cases lastCallFor cs m with
    | some v => rfl
    | none =>
      by_cases hc : c.mentor_id = m
      · subst hc
        simp only [beq_self_eq_true, if_true]
        exact filter_upsert_self st c.mentor_id c.timezone c.schedule h
      · have hb : (c.mentor_id == m) = false := by simp [hc]
        simp only [hb, Bool.false_eq_true, if_false]
        exact filter_upsert_other st c.mentor_id c.timezone c.schedule (Ne.symm hc)

/-- C6: availability saving is insert-or-replace keyed by mentor identity.
Starting from any table with at most one row per mentor, after any
sequence of successful `upsertAvailability` calls: the invariant still
holds (at most one `mentor_availability` row per mentor); a mentor with at
least one call in the sequence has exactly the row holding the timezone
and schedule of their most recent call (full replacement, no merging); and
mentors with no call keep their rows unchanged. -/
theorem upsert_availability_last_writer_wins (st : List AvailRow) (calls : List AvailCall)
    (h : uniquePerMentor st) :
    uniquePerMentor (runUpserts st calls)
      ∧ (∀ m tz sch, lastCallFor calls m = some (tz, sch) →
          (runUpserts st calls).filter (fun r => r.mentor_id == m) = [⟨m, tz, sch⟩])
      ∧ (∀ m, lastCallFor calls m = none →
          (runUpserts st calls).filter (fun r => r.mentor_id == m)
            = st.filter (fun r => r.mentor_id == m)) := by
  refine ⟨?_, ?_, ?_⟩
  · intro m
    rw [runUpserts_filter m calls st h]
    cases hlc : lastCallFor calls m with
    | some v =>
      cases v
      simp
    | none => exact h m
  · intro m tz sch hlc
    rw [runUpserts_filter m calls st h, hlc]
  · intro m hlc
    rw [runUpserts_filter m calls st h, hlc]

theorem upsert_availability_last_writer_wins_witness :
    uniquePerMentor ([] : List AvailRow)
      ∧ (uniquePerMentor (runUpserts []
            [⟨3, "Asia/Tbilisi", []⟩, ⟨3, "Europe/London", [("monday", DayVal.arr [])]⟩])
          ∧ (∀ m tz sch,
              lastCallFor [⟨3, "Asia/Tbilisi", []⟩,
                ⟨3, "Europe/London", [("monday", DayVal.arr [])]⟩] m = some (tz, sch) →
              (runUpserts []
                  [⟨3, "Asia/Tbilisi", []⟩,
                   ⟨3, "Europe/London", [("monday", DayVal.arr [])]⟩]).filter
                  (fun r => r.mentor_id == m) = [⟨m, tz, sch⟩])
          ∧ (∀ m,
              lastCallFor [⟨3, "Asia/Tbilisi", []⟩,
                ⟨3, "Europe/London", [("monday", DayVal.arr [])]⟩] m = none →
              (runUpserts []
                  [⟨3, "Asia/Tbilisi", []⟩,
                   ⟨3, "Europe/London", [("monday", DayVal.arr [])]⟩]).filter
                  (fun r => r.mentor_id == m)
                = List.filter (fun r => r.mentor_id == m) [])) :=
  ⟨fun _ => by simp,
   upsert_availability_last_writer_wins [] _ (fun _ => by simp)⟩

/-- Helper: `findSome?` depends only on the function's values on the
list's members. -/
theorem findSome?_congr_mem {α β : Type} (f g : α → Option β) :
    ∀ l : List α, (∀ a ∈ l, f a = g a) → l.findSome? f = l.findSome? g
  | [], _ => rfl
  | a :: t, h => by
    rw [List.findSome?_cons, List.findSome?_cons, h a (List.mem_cons_self a t)]
    cases g a with
    | some b => rfl
    | none => exact findSome?_congr_mem f g t (fun x hx => h x (List.mem_cons_of_mem a hx))

/-- Helper: after an upsert, the upserted row is in the table. -/
theorem mem_upsertAvailability (st : List AvailRow) (m : Nat) (tz : String) (sch : Sched) :
    (⟨m, tz, sch⟩ : AvailRow) ∈ upsertAvailability st m tz sch := by
  unfold upsertAvailability
  split
  · rename_i hany
    obtain ⟨r, hr, hp⟩ := List.any_eq_true.mp hany
    have hrow : (if r.mentor_id == m then (⟨m, tz, sch⟩ : AvailRow) else r) = ⟨m, tz, sch⟩ :=
      if_pos hp
    have hmem := List.mem_map_of_mem
      (fun x => if x.mentor_id == m then (⟨m, tz, sch⟩ : AvailRow) else x) hr
    simpa only [hrow] using hmem
  · exact List.mem_append_right _ (List.mem_singleton.mpr rfl)

/-- C10: the schedule validator inspects only the seven canonical
lowercase weekday keys: two submitted schedules agreeing on those keys
validate identically (extra keys — capitalized day names or arbitrary
strings — are neither validated nor rejected), and on a successful save
the stored `mentor_availability` row holds the submitted schedule object
verbatim, extra keys included. -/
theorem schedule_extra_keys_ignored_and_persisted (sched sched' : Sched)
    (hagree : ∀ d ∈ validDays, lookupDay sched d = lookupDay sched' d) :
    validateSchedule sched = validateSchedule sched'
      ∧ (∀ (st : List AvailRow) (m : Nat) (tz : String),
          timezoneRegexTest tz = true → validateSchedule sched = none →
          ∃ st', putAvailability st m tz sched = (st', none)
            ∧ (⟨m, tz, sched⟩ : AvailRow) ∈ st') := by
  constructor
  · exact findSome?_congr_mem _ _ validDays (fun d hd => by rw [hagree d hd])
  · intro st m tz htz hval
    refine ⟨upsertAvailability st m tz sched, ?_, mem_upsertAvailability st m tz sched⟩
    unfold putAvailability
    simp [htz, hval]

theorem schedule_extra_keys_ignored_and_persisted_witness :
    (∀ d ∈ validDays,
        lookupDay sampleScheduleWithExtraKey d = lookupDay sampleSchedulePlain d)
      ∧ (validateSchedule sampleScheduleWithExtraKey = validateSchedule sampleSchedulePlain
          ∧ (∀ (st : List AvailRow) (m : Nat) (tz : String),
              timezoneRegexTest tz = true →
              validateSchedule sampleScheduleWithExtraKey = none →
              ∃ st', putAvailability st m tz sampleScheduleWithExtraKey = (st', none)
                ∧ (⟨m, tz, sampleScheduleWithExtraKey⟩ : AvailRow) ∈ st')) :=
  ⟨by decide,
   schedule_extra_keys_ignored_and_persisted sampleScheduleWithExtraKey
     sampleSchedulePlain (by decide)⟩

/-- Helper: the truthiness test on the service name accepts exactly the
present non-empty strings. -/
theorem presentB_iff (o : Option String) :
    presentB o = true ↔ ∃ s, o = some s ∧ s ≠ "" := by
  cases o with
  | none => simp [presentB]
  | some s => simp [presentB]

/-- Helper: `optPos` accepts exactly the present positive numbers. -/
theorem optPos_iff (o : Option Rat) : optPos o = true ↔ ∃ q, o = some q ∧ 0 < q := by
  cases o with
  | none => simp [optPos]
  | some q => simp [optPos]

/-- Helper: `optNonneg` accepts exactly the present non-negative numbers. -/
theorem optNonneg_iff (o : Option Rat) : optNonneg o = true ↔ ∃ q, o = some q ∧ 0 ≤ q := by
  cases o with
  | none => simp [optNonneg]
  | some q => simp [optNonneg]

/-- Helper: `optInt` accepts exactly the present integers. -/
theorem optInt_iff (o : Option Rat) : optInt o = true ↔ ∃ q, o = some q ∧ q.den = 1 := by
  cases o with
  | none => simp [optInt]
  | some q => simp [optInt]

/-- Helper: an item passes the source's validation cascade iff it
satisfies the claim's validity conditions. -/
theorem serviceItemOk_iff_no_error (i : ServiceItem) :
    ServiceItemOk i ↔ serviceItemError i = none := by
  constructor
  · rintro ⟨⟨s, hs, hs0⟩, ⟨mp, hmp, hmpd, hmp0⟩, ⟨pf, hpf, hpfd, hpf0⟩,
      ⟨tf, htf, htfd, htf0⟩, ⟨tp, htp, htpd, htp0⟩, heq⟩
    rw [hmp, hpf, htf, htp] at heq
    simp only [Option.getD_some] at heq
    subst heq
    unfold serviceItemError
    rw [hs, hmp, hpf, htf, htp]
    simp [presentB, optPos, optNonneg, optInt, hs0, hmp0, hpf0, htf0, htp0,
      hmpd, hpfd, htfd, htpd, not_le.mpr htp0]
  · intro h
    unfold serviceItemError at h
    split_ifs at h with h1 h2 h3 h4 h5 h6 h7
    have p1 : presentB i.mentorshipService = true := by simpa using h1
    have p2 : optPos i.mentorSessionPrice = true := by simpa using h2
    have p3 : optNonneg i.platformFee = true := by simpa using h3
    have p4 : optNonneg i.taxesFee = true := by simpa using h4
    have p5 : optPos i.totalPrice = true := by simpa using h5
    have p6 : ((optInt i.mentorSessionPrice = true ∧ optInt i.platformFee = true)
        ∧ optInt i.taxesFee = true) ∧ optInt i.totalPrice = true := by
      simpa [Bool.and_eq_true] using h6
    have p7 : i.totalPrice.getD 0
        = i.mentorSessionPrice.getD 0 + i.platformFee.getD 0 + i.taxesFee.getD 0 := by
      simpa using h7
    obtain ⟨mp, hmp, hmp0⟩ := (optPos_iff _).mp p2
    obtain ⟨mp', hmp', hmpd⟩ := (optInt_iff _).mp p6.1.1.1
    obtain ⟨pf, hpf, hpf0⟩ := (optNonneg_iff _).mp p3
    obtain ⟨pf', hpf', hpfd⟩ := (optInt_iff _).mp p6.1.1.2
    obtain ⟨tf, htf, htf0⟩ := (optNonneg_iff _).mp p4
    obtain ⟨tf', htf', htfd⟩ := (optInt_iff _).mp p6.1.2
    obtain ⟨tp, htp, htp0⟩ := (optPos_iff _).mp p5
    obtain ⟨tp', htp', htpd⟩ := (optInt_iff _).mp p6.2
    rw [hmp] at hmp'
    rw [hpf] at hpf'
    rw [htf] at htf'
    rw [htp] at htp'
    refine ⟨(presentB_iff _).mp p1, ⟨mp, hmp, ?_, hmp0⟩, ⟨pf, hpf, ?_, hpf0⟩,
      ⟨tf, htf, ?_, htf0⟩, ⟨tp, htp, ?_, htp0⟩, p7⟩
    · rw [Option.some_inj.mp hmp']; exact hmpd
    · rw [Option.some_inj.mp hpf']; exact hpfd
    · rw [Option.some_inj.mp htf']; exact htfd
    · rw [Option.some_inj.mp htp']; exact htpd

/-- C4: the mentor-services batch replace validates every submitted item
before any write: if some item violates the validity conditions the
handler returns a validation error and the stored table — in particular
the mentor's pre-existing rows — is completely unchanged; if every item
passes, no error is returned, the mentor's stored rows afterwards are
exactly the submitted items (content-wise, in order), and other mentors'
rows are untouched. -/
theorem services_replace_validate_before_write (idGen : Nat → Nat) (st : List MService)
    (m : Nat) (items : List ServiceItem) :
    ((∃ i ∈ items, ¬ ServiceItemOk i) →
        ∃ e, putServices idGen st m items = (st, some e))
      ∧ ((∀ i ∈ items, ServiceItemOk i) →
        (putServices idGen st m items).2 = none
          ∧ ((putServices idGen st m items).1.filter
                (fun r => r.mentor_id == m)).map rowContent
              = items.map itemContent
          ∧ (putServices idGen st m items).1.filter (fun r => !(r.mentor_id == m))
              = st.filter (fun r => !(r.mentor_id == m))) := by
  constructor
  · rintro ⟨i, hi, hbad⟩
    cases he : servicesValidationError items with
    | none =>
      have : serviceItemError i = none :=
        (List.findSome?_eq_none_iff.mp he) i hi
      exact absurd ((serviceItemOk_iff_no_error i).mpr this) hbad
    | some e =>
      exact ⟨e, by unfold putServices; rw [he]⟩
  · intro hall
    have hval : servicesValidationError items = none :=
      List.findSome?_eq_none_iff.mpr
        (fun i hi => (serviceItemOk_iff_no_error i).mp (hall i hi))
    unfold putServices
    rw [hval]
    refine ⟨rfl, ?_, ?_⟩
    · rw [List.filter_append]
      have h1 : (st.filter (fun r => !(r.mentor_id == m))).filter
          (fun r => r.mentor_id == m) = [] := by
        rw [List.filter_filter, List.filter_eq_nil_iff]
        intro a _
        simp
      have h2 : (items.enum.map (fun p => itemToRow m (idGen p.1) p.2)).filter
            (fun r => r.mentor_id == m)
          = items.enum.map (fun p => itemToRow m (idGen p.1) p.2) := by
        rw [List.filter_eq_self]
        intro r hr
        obtain ⟨p, _, rfl⟩ := List.mem_map.mp hr
        simp [itemToRow]
      rw [h1, h2, List.nil_append, List.map_map]
      have hcomp : (rowContent ∘ fun p : Nat × ServiceItem => itemToRow m (idGen p.1) p.2)
          = (itemContent ∘ Prod.snd) := by
        funext p
        rfl
      rw [hcomp, ← List.map_map]
      rw [show (List.map Prod.snd items.enum) = items from List.enumFrom_map_snd 0 items]
    · rw [List.filter_append]
      have h1 : (st.filter (fun r => !(r.mentor_id == m))).filter
            (fun r => !(r.mentor_id == m))
          = st.filter (fun r => !(r.mentor_id == m)) := by
        rw [List.filter_eq_self]
        intro a ha
        exact (List.mem_filter.mp ha).2
      have h2 : (items.enum.map (fun p => itemToRow m (idGen p.1) p.2)).filter
          (fun r => !(r.mentor_id == m)) = [] := by
        rw [List.filter_eq_nil_iff]
        intro a ha
        obtain ⟨p, _, rfl⟩ := List.mem_map.mp ha
        simp [itemToRow]
      rw [h1, h2, List.append_nil]

theorem services_replace_validate_before_write_witness :
    ((∃ i ∈ [ServiceItem.mk (some "Profession Introduction Session")
          (some 100) (some 14) (some 26) (some 139)], ¬ ServiceItemOk i)
      → ∃ e, putServices (fun k => k)
          [⟨9, 1, "Old", 50, 7, 13, 70⟩] 1
          [ServiceItem.mk (some "Profession Introduction Session")
            (some 100) (some 14) (some 26) (some 139)]
          = ([⟨9, 1, "Old", 50, 7, 13, 70⟩], some e))
      ∧ (∃ i ∈ [ServiceItem.mk (some "Profession Introduction Session")
          (some 100) (some 14) (some 26) (some 139)], ¬ ServiceItemOk i) :=
  ⟨(services_replace_validate_before_write (fun k => k)
      [⟨9, 1, "Old", 50, 7, 13, 70⟩] 1
      [ServiceItem.mk (some "Profession Introduction Session")
        (some 100) (some 14) (some 26) (some 139)]).1,
   ⟨_, List.mem_singleton.mpr rfl, by
      rintro ⟨_, _, _, _, _, heq⟩
      simp only [Option.getD_some] at heq
      norm_num at heq⟩⟩

/-- C9: booking creation never consults the mentor's stored weekly
availability.  For every database state — in particular for EVERY content
of the `mentor_availability` table, including no record at all for the
mentor — if the mentor exists, the service belongs to them, the proposed
start is parseable and strictly in the future, and no non-excluded booking
of the mentor conflicts, then `createBooking` succeeds and appends the
new pending booking. -/
theorem create_booking_ignores_availability
    (users : List User) (services : List MService) (bookings : List Booking)
    (avail : List AvailRow) (now p : Int) (userId mentorId serviceId : Nat)
    (hm : users.any (fun u => u.id == mentorId && u.user_type == "mentor") = true)
    (hs : (services.find? (fun s => s.id == serviceId && s.mentor_id == mentorId)).isSome
      = true)
    (hfut : now < p)
    (hnc : hasConflict bookings mentorId p = false) :
    createBooking ⟨users, services, bookings, avail⟩ now userId mentorId serviceId (some p)
      = .ok (⟨users, services,
              bookings ++ [⟨mentorId, userId, serviceId, p, 60, "pending"⟩], avail⟩,
             ⟨mentorId, userId, serviceId, p, 60, "pending"⟩) := by
  obtain ⟨sv, hsv⟩ := Option.isSome_iff_exists.mp hs
  unfold createBooking
  rw [hsv]
  simp [hm, hnc, not_le.mpr hfut]

theorem create_booking_ignores_availability_witness :
    (([⟨0, "mentor"⟩] : List User).any (fun u => u.id == 0 && u.user_type == "mentor") = true
        ∧ (([⟨5, 0, "Intro", 100, 14, 26, 140⟩] : List MService).find?
            (fun s => s.id == 5 && s.mentor_id == 0)).isSome = true
        ∧ (0 : Int) < 100
        ∧ hasConflict [] 0 100 = false)
      ∧ createBooking ⟨[⟨0, "mentor"⟩], [⟨5, 0, "Intro", 100, 14, 26, 140⟩], [], []⟩
            0 1 0 5 (some 100)
          = .ok (⟨[⟨0, "mentor"⟩], [⟨5, 0, "Intro", 100, 14, 26, 140⟩],
                  [⟨0, 1, 5, 100, 60, "pending"⟩], []⟩,
                 ⟨0, 1, 5, 100, 60, "pending"⟩) :=
  ⟨⟨by decide, by decide, by decide, by decide⟩,
   create_booking_ignores_availability [⟨0, "mentor"⟩] [⟨5, 0, "Intro", 100, 14, 26, 140⟩]
     [] [] 0 100 1 0 5 (by decide) (by decide) (by decide) (by decide)⟩

end ZAcademy
